import Mathlib

/-!
Verification development for the azure-health-ops-pipeline ETL scripts
(`scripts/etl_load.py`, `scripts/etl_utils.py`).

The Python code is shallowly embedded: a pandas `DataFrame` becomes a
`DataFrame` structure of column labels and rows of `Cell`s; the pandas
kernels actually used by the scripts (`pd.to_numeric(errors="coerce")`,
`.astype("Int64")`, `pd.to_datetime(errors="coerce")`, `.astype(str).str.strip()`,
`Series.str.split(sep, expand=True)`, column-label assignment) are embedded
as cell- and table-level functions; raising Python code returns `Except`.
String primitives (strip, split, membership) are embedded over the
character lists of the strings, and numeric values as exact decimals
(numerator over a power of ten) — the claims never depend on binary
float rounding.

Python object identity (needed for the mutation/frame claims) is embedded
by a `Store` of `DataFrame` objects addressed by `Ref`s: a function that
mutates an argument writes through the caller's `Ref`, and `df.copy()` /
pandas operations that build a new frame allocate a fresh `Ref`.

The orchestration in `etl_load.py:main` is embedded as a step list executed
against a failure oracle `fail : Event → Bool` (the external world: blob
storage and the database); the run-ledger row `ETL_Run` is the fold of the
emitted event trace.
-/

namespace HealthOps

/-- Python `str.strip()`: drop whitespace from both ends. -/
def pyTrim (s : String) : String :=
  ⟨((s.data.dropWhile Char.isWhitespace).reverse.dropWhile Char.isWhitespace).reverse⟩

/-- Python `ch in s` for a one-character needle. -/
def strContains (s : String) (c : Char) : Bool :=
  s.data.contains c

/-- Python `s.startswith(p)`. -/
def strStartsWith (s p : String) : Bool :=
  p.data.isPrefixOf s.data

/-- Python `s.split(sep)` for a one-character separator: splitting the
empty string yields one empty field, and separators at the ends yield
empty fields, exactly as in Python. -/
def splitOnChar (sep : Char) : List Char → List (List Char)
  | [] => [[]]
  | c :: rest =>
      let r := splitOnChar sep rest
      if c = sep then [] :: r
      else
        match r with
        | h :: t => (c :: h) :: t
        | [] => [[c]]

/-- An exact decimal value: `num / den` with `den` a power of ten as
written in the text. Embeds the numeric values flowing through
`pd.to_numeric`; the claims depend only on parse success, integrality and
the integer value, never on float rounding. -/
structure DecNum where
  num : Int
  den : Nat
deriving DecidableEq, Repr

/-- A pandas cell: missing (`NaN`/`NaT`/`NA`), a string, a numeric value,
a nullable integer, or a datetime (embedded as an encoded day number). -/
inductive Cell where
  | na
  | str (s : String)
  | num (q : DecNum)
  | int (n : Int)
  | date (d : Nat)
deriving DecidableEq, Repr

instance : Inhabited Cell := ⟨Cell.na⟩

/-- A pandas DataFrame: column labels plus rows of cells (cell `i` of a row
belongs to column `i`). -/
structure DataFrame where
  columns : List String
  rows : List (List Cell)
deriving DecidableEq, Repr

instance : Inhabited DataFrame := ⟨⟨[], []⟩⟩

/-- Numeric value of a digit list (most significant first). -/
def natOfDigits (l : List Char) : Nat :=
  l.foldl (fun a c => a * 10 + (c.toNat - 48)) 0

/-- Decimal-literal parser embedding the conversion underlying
`pd.to_numeric`: optional sign, integer part, optional fractional part
(the scripts only ever feed plain decimal text through it). Returns `none`
for non-numeric text. -/
def parseDecimal (s : String) : Option DecNum :=
  let t := (pyTrim s).data
  let p :=
    match t with
    | '-' :: rest => (true, rest)
    | '+' :: rest => (false, rest)
    | l => (false, l)
  let v? : Option DecNum :=
    match splitOnChar '.' p.2 with
    | [ip] =>
        if 0 < ip.length ∧ ip.all Char.isDigit then
          some ⟨(natOfDigits ip : Int), 1⟩
        else none
    | [ip, fp] =>
        if (0 < ip.length ∨ 0 < fp.length) ∧ ip.all Char.isDigit ∧
            fp.all Char.isDigit then
          some ⟨(natOfDigits (ip ++ fp) : Int), 10 ^ fp.length⟩
        else none
    | _ => none
  v?.map (fun v => if p.1 then ⟨-v.num, v.den⟩ else v)

/-- ISO-date parser embedding the conversion underlying `pd.to_datetime`
for the `YYYY-MM-DD` dates this pipeline carries; `none` for unparsable
text. -/
def parseDate (s : String) : Option Nat :=
  match splitOnChar '-' (pyTrim s).data with
  | [y, m, d] =>
      if (0 < y.length ∧ y.all Char.isDigit) ∧
          (0 < m.length ∧ m.all Char.isDigit) ∧
          (0 < d.length ∧ d.all Char.isDigit) then
        let mv := natOfDigits m
        let dv := natOfDigits d
        if 1 ≤ mv ∧ mv ≤ 12 ∧ 1 ≤ dv ∧ dv ≤ 31 then
          some (natOfDigits y * 10000 + mv * 100 + dv)
        else none
      else none
  | _ => none

/-- Cell-level `pd.to_numeric(·, errors="coerce")`: invalid text becomes
null, numbers pass through, dates expose their integer encoding. Total. -/
def toNumericCell : Cell → Cell
  | .na => .na
  | .str s => match parseDecimal s with | some q => .num q | none => .na
  | .num q => .num q
  | .int n => .num ⟨n, 1⟩
  | .date d => .num ⟨(d : Int), 1⟩

/-- Cell-level `.astype("Int64")` applied to the output of `to_numeric`:
null stays null, integral values convert, and a non-integral value raises
(`TypeError: cannot safely cast non-equivalent float64 to int64`). -/
def int64OfCell : Cell → Except String Cell
  | .na => .ok .na
  | .num q =>
      if q.num % (q.den : Int) = 0 then .ok (.int (q.num / (q.den : Int)))
      else .error "cannot safely cast non-equivalent float64 to int64"
  | .int n => .ok (.int n)
  | c => .ok c

/-- Cell-level `pd.to_datetime(·, errors="coerce", utc=False)`: invalid
text becomes null (`NaT`); numeric cells are read as epoch encodings. Total. -/
def toDatetimeCell : Cell → Cell
  | .na => .na
  | .str s => match parseDate s with | some d => .date d | none => .na
  | .num q => .date (q.num / (q.den : Int)).toNat
  | .int n => .date n.toNat
  | .date d => .date d

/-- Cell-level `.astype(str)`: note pandas renders a missing value as the
literal string `nan`; the rendering of already-typed cells is nominal
(never exercised by the pipeline, whose cells are raw strings). -/
def cellStr : Cell → String
  | .na => "nan"
  | .str s => s
  | .num q => toString q.num
  | .int n => toString n
  | .date d => toString d

/-- Cell-level `.astype(str).str.strip()`. Total. -/
def toStrCell (c : Cell) : Cell := .str (pyTrim (cellStr c))

/-- One mapped column of `_coerce_types`' body: the branch on the target
type tag, in source order (`datetime*`, `float`, `int`, `str`, fallback =
string). Only the `int` branch can raise, via `int64OfCell`. -/
def coerceTarget (target : String) (c : Cell) : Except String Cell :=
  if strStartsWith target "datetime" then .ok (toDatetimeCell c)
  else if target = "float" then .ok (toNumericCell c)
  else if target = "int" then int64OfCell (toNumericCell c)
  else .ok (toStrCell c)

/-- Apply `coerceTarget target` to the cells of one row lying in the
positions labelled `col` (the row is walked in parallel with the labels),
propagating the first raised error. -/
def coerceCells (labels : List String) (col target : String) :
    List Cell → Except String (List Cell)
  | [] => .ok []
  | c :: cs =>
      match labels with
      | [] => .ok (c :: cs)
      | l :: ls =>
          match (if l = col then coerceTarget target c else .ok c) with
          | .error e => .error e
          | .ok c' =>
              match coerceCells ls col target cs with
              | .error e => .error e
              | .ok cs' => .ok (c' :: cs')

/-- Row-wise traversal collecting the first raised error. -/
def mapME (f : List Cell → Except String (List Cell)) :
    List (List Cell) → Except String (List (List Cell))
  | [] => .ok []
  | r :: rs =>
      match f r with
      | .error e => .error e
      | .ok r' =>
          match mapME f rs with
          | .error e => .error e
          | .ok rs' => .ok (r' :: rs')

/-- The column assignment `out[col] = <coerced column>` of `_coerce_types`:
recompute every cell in column `col`; if any cell raises, the whole
assignment raises and the frame is unchanged. -/
def applyCol (df : DataFrame) (col target : String) : Except String DataFrame :=
  match mapME (fun r => coerceCells df.columns col target r) df.rows with
  | .ok rows' => .ok { columns := df.columns, rows := rows' }
  | .error e => .error e

/-- The `for col, target in mapping.items()` loop of `_coerce_types`
(mapping embedded as an insertion-ordered association list): absent
columns are skipped, a raising assignment aborts the loop. -/
def coerceLoop (out : DataFrame) : List (String × String) → Except String DataFrame
  | [] => .ok out
  | (col, target) :: rest =>
      if col ∈ out.columns then
        match applyCol out col target with
        | .ok out' => coerceLoop out' rest
        | .error e => .error e
      else coerceLoop out rest

/-- `_coerce_types(df, mapping)` (identical in `etl_load.py` and
`etl_utils.py`): work on a copy of `df`, coerce each mapped column that is
present, return the copy. -/
def coerceTypes (df : DataFrame) (mapping : List (String × String)) :
    Except String DataFrame :=
  coerceLoop df mapping

/-- A reference to a Python DataFrame object. -/
abbrev Ref := Nat

/-- The heap of live DataFrame objects, addressed by `Ref` (list index). -/
abbrev Store := List DataFrame

/-- Dereference: the DataFrame currently held at `r`. -/
def Store.read (σ : Store) (r : Ref) : DataFrame := σ.getD r ⟨[], []⟩

/-- In-place mutation of the object at `r`. -/
def Store.write (σ : Store) (r : Ref) (d : DataFrame) : Store := σ.set r d

/-- The mapping loop of `_coerce_types` run against the store, writing every
column assignment through `out`'s reference. -/
def coerceLoopImp (σ : Store) (out : Ref) :
    List (String × String) → Store × Except String Unit
  | [] => (σ, .ok ())
  | (col, target) :: rest =>
      let d := σ.read out
      if col ∈ d.columns then
        match applyCol d col target with
        | .ok d' => coerceLoopImp (σ.write out d') out rest
        | .error e => (σ, .error e)
      else coerceLoopImp σ out rest

/-- `_coerce_types` at the object level: `out = df.copy()` allocates a fresh
object, the loop mutates only that fresh object, and its reference is
returned; the caller's object is never written. -/
def coerceTypesImp (σ : Store) (r : Ref) (mapping : List (String × String)) :
    Store × Except String Ref :=
  let df := σ.read r
  let out : Ref := σ.length
  let σ1 := σ ++ [df]
  match coerceLoopImp σ1 out mapping with
  | (σ2, .ok _) => (σ2, .ok out)
  | (σ2, .error e) => (σ2, .error e)

/-- Errors raised by `_split_single_column_csv`: the schema-mismatch
`ValueError` carrying the missing and the found column names, and the
label-assignment length-mismatch `ValueError` pandas raises when the split
width disagrees with the header part count. -/
inductive RepairError where
  | schemaMismatch (missing found : List String)
  | lengthMismatch (headerParts width : Nat)
deriving DecidableEq, Repr

/-- Delimiter selection of `_split_single_column_csv`: `sep = ","`, then
`if ";" in header: sep = ";"` `elif "|" in header: sep = "|"` — so a
semicolon wins over a pipe, and both win over the comma default. -/
def detectSep (header : String) : Char :=
  if strContains header ';' then ';'
  else if strContains header '|' then '|'
  else ','

/-- The guard `any(ch in df.columns[0] for ch in [",", ";", "|"])`. -/
def hasDelim (h : String) : Bool :=
  strContains h ',' || strContains h ';' || strContains h '|'

/-- The split-branch condition of `_split_single_column_csv`:
exactly one column whose header contains a delimiter character. -/
def needsSplit (df : DataFrame) : Bool :=
  df.columns.length = 1 && hasDelim (df.columns.getD 0 "")

/-- `Series.str.split(sep)` on one cell: strings split, anything else
(missing values included) yields none and expands to an all-null row. -/
def splitParts (sep : Char) : Cell → Option (List String)
  | .str s => some ((splitOnChar sep s.data).map (fun cs => ⟨cs⟩))
  | _ => none

/-- Pad a split row with nulls up to the expansion width (pandas pads
shorter splits with missing values under `expand=True`). -/
def padTo (w : Nat) (l : List Cell) : List Cell :=
  l ++ List.replicate (w - l.length) .na

/-- One expanded row of `df[df.columns[0]].str.split(sep, expand=True)`. -/
def expandRow (sep : Char) (w : Nat) (c : Cell) : List Cell :=
  match splitParts sep c with
  | some parts => padTo w (parts.map Cell.str)
  | none => List.replicate w .na

/-- Width of the expanded frame: the maximum split length over the rows
(a non-string cell occupies one all-null column slot). -/
def expandWidth (sep : Char) (rows : List (List Cell)) : Nat :=
  (rows.map (fun r =>
    match splitParts sep (r.getD 0 .na) with
    | some parts => parts.length
    | none => 1)).foldr max 0

/-- The split branch of `_split_single_column_csv`: detect the delimiter,
split the header into trimmed parts, expand every row's single value, and
assign the header parts as column labels (pandas raises `ValueError` if the
label count disagrees with the expanded width). -/
def splitPhase (df : DataFrame) : Except RepairError DataFrame :=
  let header := df.columns.getD 0 ""
  let sep := detectSep header
  let headerParts := ((splitOnChar sep header.data).map (fun cs => pyTrim ⟨cs⟩))
  let w := expandWidth sep df.rows
  if headerParts.length = w then
    .ok { columns := headerParts,
          rows := df.rows.map (fun r => expandRow sep w (r.getD 0 .na)) }
  else
    .error (.lengthMismatch headerParts.length w)

/-- The label assignment `df.columns = [c.strip() for c in df.columns]`. -/
def stripCols (df : DataFrame) : DataFrame :=
  { columns := df.columns.map pyTrim, rows := df.rows }

/-- Column selection `df[names]`: for each requested label take the first
column bearing it, in the requested order, dropping all others. -/
def selectCols (df : DataFrame) (names : List String) : DataFrame :=
  { columns := names,
    rows := df.rows.map (fun r =>
      names.map (fun n => r.getD (df.columns.findIdx (fun c => c = n)) .na)) }

/-- `df.rename(columns=dict(zip(old, new)))`: relabel via the zip dict
(last binding wins, labels outside the dict unchanged). -/
def renameZip (df : DataFrame) (old new : List String) : DataFrame :=
  let pairs := (old.zip new).reverse
  { columns := df.columns.map (fun c =>
      (((pairs.find? (fun p => p.1 = c)).map Prod.snd)).getD c),
    rows := df.rows }

/-- The validate/select tail of `_split_single_column_csv`: strip labels,
fail with the missing and found columns if a required name is absent,
otherwise return the required columns (renamed when `new_names` is a
non-empty list, mirroring Python truthiness). -/
def finishRepair (df : DataFrame) (expectedCols : List String)
    (newNames : Option (List String)) : Except RepairError DataFrame :=
  let df2 := stripCols df
  let missing := expectedCols.filter (fun c => ¬ (c ∈ df2.columns))
  if missing = [] then
    match newNames with
    | some names =>
        if names.length = 0 then .ok (selectCols df2 expectedCols)
        else .ok (renameZip (selectCols df2 expectedCols) expectedCols names)
    | none => .ok (selectCols df2 expectedCols)
  else
    .error (.schemaMismatch missing df2.columns)

/-- `_split_single_column_csv(df, expected_cols, new_names)`: split the
single delimited column when the branch condition holds, then strip,
validate and select. -/
def splitSingleColumnCsv (df : DataFrame) (expectedCols : List String)
    (newNames : Option (List String)) : Except RepairError DataFrame :=
  if needsSplit df then
    match splitPhase df with
    | .ok d1 => finishRepair d1 expectedCols newNames
    | .error e => .error e
  else
    finishRepair df expectedCols newNames

/-- The validate/select tail at the object level: the strip assignment
`df.columns = [...]` writes through whatever object the local name `df`
currently denotes, and the final selection builds a fresh object. -/
def finishRepairImp (σ : Store) (r : Ref) (expectedCols : List String)
    (newNames : Option (List String)) : Store × Except RepairError Ref :=
  let d2 := stripCols (σ.read r)
  let σ1 := σ.write r d2
  let missing := expectedCols.filter (fun c => ¬ (c ∈ d2.columns))
  if missing = [] then
    let res :=
      match newNames with
      | some names =>
          if names.length = 0 then selectCols d2 expectedCols
          else renameZip (selectCols d2 expectedCols) expectedCols names
      | none => selectCols d2 expectedCols
    (σ1 ++ [res], .ok σ1.length)
  else
    (σ1, .error (.schemaMismatch missing d2.columns))

/-- `_split_single_column_csv` at the object level: in the split branch the
local name is rebound to the freshly expanded frame, so the strip
assignment mutates that fresh object; in the no-split branch the strip
assignment mutates the caller's object in place. -/
def splitImp (σ : Store) (r : Ref) (expectedCols : List String)
    (newNames : Option (List String)) : Store × Except RepairError Ref :=
  let df := σ.read r
  if needsSplit df then
    match splitPhase df with
    | .ok d1 => finishRepairImp (σ ++ [d1]) σ.length expectedCols newNames
    | .error e => (σ, .error e)
  else
    finishRepairImp σ r expectedCols newNames

/-- The staging database: rows held by each staging relation, by name. -/
abbrev StagingDB := String → List (List Cell)

/-- `DataFrame.empty` in pandas: true when either axis has length zero. -/
def DataFrame.emptyPd (df : DataFrame) : Bool :=
  df.rows.isEmpty || df.columns.isEmpty

/-- `load_staging(table_name, df)`: refuse an empty frame with a
`ValueError` and leave the database untouched, otherwise append all rows to
the named staging relation in one bulk `to_sql(..., if_exists="append")`. -/
def load_staging (tableName : String) (df : DataFrame) (db : StagingDB) :
    StagingDB × Except String Unit :=
  if df.emptyPd then
    (db, .error ("Refusing to load empty DataFrame into " ++ tableName ++ "."))
  else
    (fun n => if n = tableName then db tableName ++ df.rows else db n, .ok ())

/-- One externally visible operation of `main`: run-ledger calls, blob
reads, in-process repair/coercion steps, staging calls, merge-procedure
executions and count queries/updates. Merge executions carry the optional
`@RunID` argument (`sp_upsert_claim` alone receives one). -/
inductive Event where
  | startRun
  | readBlob (blobName : String)
  | splitCsv (entity : String)
  | coerceStep (entity : String)
  | truncateStaging
  | loadStg (tableName : String)
  | stgCounts
  | mergeProc (procName : String) (runIdArg : Option Nat)
  | finalCounts
  | updateCounts (runId : Nat)
  | finishRun (runId : Nat) (status : String)
deriving DecidableEq, Repr

/-- The body of the `try` block of `main`, in source order; the three
`_split_single_column_csv` calls are conditional on the frame having
parsed as a single column (the `sp`/`st`/`sc` flags). Each step is a call
that may raise. -/
def mainSteps (sp st sc : Bool) (runId : Nat) : List Event :=
  [.readBlob "providers.csv", .readBlob "patients.csv", .readBlob "claims.csv"]
  ++ (if sp then [.splitCsv "providers"] else [])
  ++ (if st then [.splitCsv "patients"] else [])
  ++ (if sc then [.splitCsv "claims"] else [])
  ++ [.coerceStep "providers", .coerceStep "patients", .coerceStep "claims",
      .truncateStaging,
      .loadStg "StgProvider", .loadStg "StgPatient", .loadStg "StgClaim",
      .stgCounts,
      .mergeProc "dbo.sp_upsert_provider" none,
      .mergeProc "dbo.sp_upsert_patient" none,
      .mergeProc "dbo.sp_upsert_claim" (some runId),
      .finalCounts,
      .updateCounts runId]

/-- Execute steps in order against a failure oracle: each step is invoked
(appears in the trace); the first step the oracle fails raises, ending
the block with the remaining steps never invoked. -/
def execSteps (fail : Event → Bool) : List Event → List Event × Bool
  | [] => ([], true)
  | e :: rest =>
      if fail e then ([e], false)
      else
        let p := execSteps fail rest
        (e :: p.1, p.2)

/-- `main()`: create the run row, execute the `try` block, and finalize via
`finish_run` with `SUCCESS` on the success path or `FAILED` in the
`except` guard before re-raising (the returned flag is false when the
error propagates to the caller). `start_run` itself may fail, in which
case no run row exists and nothing is finalized. -/
def runMain (fail : Event → Bool) (sp st sc : Bool) (runId : Nat) :
    List Event × Bool :=
  if fail .startRun then ([.startRun], false)
  else
    let p := execSteps fail (mainSteps sp st sc runId)
    if p.2 then (.startRun :: (p.1 ++ [.finishRun runId "SUCCESS"]), true)
    else (.startRun :: (p.1 ++ [.finishRun runId "FAILED"]), false)

/-- The `ETL_Run` row fields the claims speak about. -/
structure RunRow where
  status : String
  endedAt : Option Nat
deriving DecidableEq, Repr

/-- Effect of one event on the run row: `finish_run(run_id, status)` sets
`EndedAt = SYSUTCDATETIME()` and `Status = status`; no other event touches
these fields. -/
def applyEvent (row : RunRow) : Event → RunRow
  | .finishRun _ s => { status := s, endedAt := some 1 }
  | _ => row

/-- The run row after a trace, starting from the freshly inserted
`RUNNING` row with a null end timestamp. -/
def runRowAfter (tr : List Event) : RunRow :=
  tr.foldl applyEvent { status := "RUNNING", endedAt := none }

/-- Recognizer for merge-procedure executions. -/
def isMergeEvent : Event → Bool
  | .mergeProc _ _ => true
  | _ => false

/-- Recognizer for `finish_run` calls. -/
def isFinishEvent : Event → Bool
  | .finishRun _ _ => true
  | _ => false

/-- Column `i` of a frame, as the list of its cells down the rows. -/
def getCol (df : DataFrame) (i : Nat) : List Cell :=
  df.rows.map (fun r => r.getD i .na)

/-! Basic store lemmas. -/

theorem Store.read_write_ne (σ : Store) (r q : Ref) (d : DataFrame) (h : r ≠ q) :
    (σ.write r d).read q = σ.read q := by
  induction σ generalizing r q with
  | nil => rfl
  | cons a as ih =>
      cases r with
      | zero =>
          cases q with
          | zero => exact absurd rfl h
          | succ q' => rfl
      | succ r' =>
          cases q with
          | zero => rfl
          | succ q' => exact ih r' q' (fun hh => h (by rw [hh]))

theorem Store.read_write_self (σ : Store) (r : Ref) (d : DataFrame)
    (h : r < σ.length) : (σ.write r d).read r = d := by
  induction σ generalizing r with
  | nil => exact absurd h (by simp)
  | cons a as ih =>
      cases r with
      | zero => rfl
      | succ r' => exact ih r' (Nat.lt_of_succ_lt_succ h)

theorem Store.read_append_left (σ l : Store) (r : Ref) (h : r < σ.length) :
    (σ ++ l).read r = σ.read r := by
  induction σ generalizing r with
  | nil => exact absurd h (by simp)
  | cons a as ih =>
      cases r with
      | zero => rfl
      | succ r' => exact ih r' (Nat.lt_of_succ_lt_succ h)

theorem Store.write_length (σ : Store) (r : Ref) (d : DataFrame) :
    (σ.write r d).length = σ.length := by
  simp [Store.write]

/-- The validate/select tail leaves the object at `r` holding the stripped
frame, whatever the validation outcome. -/
theorem finishRepairImp_read_self (σ : Store) (r : Ref)
    (expected : List String) (newNames : Option (List String))
    (hr : r < σ.length) :
    (finishRepairImp σ r expected newNames).1.read r = stripCols (σ.read r) := by
  have hw : (σ.write r (stripCols (σ.read r))).read r = stripCols (σ.read r) :=
    Store.read_write_self σ r _ hr
  have hlen : r < (σ.write r (stripCols (σ.read r))).length := by
    rw [Store.write_length]; exact hr
  unfold finishRepairImp
  dsimp only
  by_cases hm :
      List.filter (fun c => decide (c ∉ (stripCols (σ.read r)).columns)) expected = []
  · rw [if_pos hm, Store.read_append_left _ _ _ hlen]
    exact hw
  · rw [if_neg hm]
    exact hw

/-! Claim C3: type coercion is claimed total over the supported tags.
The nullable-integer branch `pd.to_numeric(...).astype("Int64")` raises on
a non-integral numeric value such as `3.5`, so coercion is not total; the
documented examples (`3.0` becomes the integer 3, non-numeric text becomes
null, float/date invalid text becomes null) do hold. -/

/-- C3: coercion of the cell value `3.5` under the nullable-integer target
raises (the unsafe float-to-Int64 cast), contradicting the claimed
totality; the claim's positive examples hold: under the `int` target the
string `3.0` becomes the integer 3 and non-numeric text becomes null, and
the float and date targets coerce invalid text to null. -/
theorem C3_coercion_not_total :
    coerceTypes ⟨["AmountBilled"], [[Cell.str "3.5"]]⟩ [("AmountBilled", "int")]
      = .error "cannot safely cast non-equivalent float64 to int64"
    ∧ coerceTarget "int" (.str "3.5")
      = .error "cannot safely cast non-equivalent float64 to int64"
    ∧ coerceTarget "int" (.str "3.0") = .ok (.int 3)
    ∧ coerceTarget "int" (.str "not a number") = .ok .na
    ∧ coerceTarget "float" (.str "not a number") = .ok .na
    ∧ coerceTarget "datetime64[ns]" (.str "not a date") = .ok .na := by
  refine ⟨?_, ?_, ?_, ?_, ?_, ?_⟩ <;> rfl

/-- C5: `load_staging` raises the empty-load `ValueError` exactly on
zero-row frames (any frame that actually has columns), inserts nothing in
that case, and otherwise appends all rows to the named staging relation,
leaving every other relation unchanged. -/
theorem C5_empty_load_rejected (name : String) (df : DataFrame) (db : StagingDB)
    (hcols : df.columns ≠ []) :
    ((load_staging name df db).2
        = .error ("Refusing to load empty DataFrame into " ++ name ++ ".")
      ↔ df.rows = [])
    ∧ (df.rows = [] → (load_staging name df db).1 = db)
    ∧ (df.rows ≠ [] →
        (load_staging name df db).1 name = db name ++ df.rows
        ∧ ∀ n, n ≠ name → (load_staging name df db).1 n = db n) := by
  have hc : df.columns.isEmpty = false := by
    cases h : df.columns with
    | nil => exact absurd h hcols
    | cons a l => rfl
  cases hrows : df.rows with
  | nil =>
      refine ⟨⟨fun _ => rfl, fun _ => ?_⟩, fun _ => ?_, fun hne => absurd rfl hne⟩ <;>
        simp [load_staging, DataFrame.emptyPd, hrows]
  | cons r rs =>
      refine ⟨⟨fun h => ?_, fun h => by simp at h⟩, fun h => by simp at h,
        fun _ => ⟨?_, fun n hn => ?_⟩⟩
      · simp [load_staging, DataFrame.emptyPd, hrows, hc] at h
      · simp [load_staging, DataFrame.emptyPd, hrows, hc]
      · simp [load_staging, DataFrame.emptyPd, hrows, hc, hn]

/-- C5 witness: a two-row provider frame is appended to `StgProvider`. -/
theorem C5_witness :
    ((load_staging "StgProvider"
        ⟨["Name"], [[Cell.str "a"], [Cell.str "b"]]⟩ (fun _ => [])).2
      = .error ("Refusing to load empty DataFrame into " ++ "StgProvider" ++ ".")
      ↔ ([[Cell.str "a"], [Cell.str "b"]] : List (List Cell)) = [])
    ∧ (([[Cell.str "a"], [Cell.str "b"]] : List (List Cell)) = [] →
        (load_staging "StgProvider"
          ⟨["Name"], [[Cell.str "a"], [Cell.str "b"]]⟩ (fun _ => [])).1 = (fun _ => []))
    ∧ (([[Cell.str "a"], [Cell.str "b"]] : List (List Cell)) ≠ [] →
        (load_staging "StgProvider"
          ⟨["Name"], [[Cell.str "a"], [Cell.str "b"]]⟩ (fun _ => [])).1 "StgProvider"
          = (fun _ => ([] : List (List Cell))) "StgProvider" ++ [[Cell.str "a"], [Cell.str "b"]]
        ∧ ∀ n, n ≠ "StgProvider" →
            (load_staging "StgProvider"
              ⟨["Name"], [[Cell.str "a"], [Cell.str "b"]]⟩ (fun _ => [])).1 n
              = (fun _ => ([] : List (List Cell))) n) :=
  C5_empty_load_rejected "StgProvider"
    ⟨["Name"], [[Cell.str "a"], [Cell.str "b"]]⟩ (fun _ => []) (by decide)

/-- C10: when no split is needed (the table is multi-column, or
single-column without a delimiter in its header), `_split_single_column_csv`
assigns the whitespace-stripped labels through the caller's reference: after
the call the caller's object holds the stripped labels, whatever the
validation outcome. -/
theorem C10_strip_mutates_caller (σ : Store) (r : Ref)
    (expected : List String) (newNames : Option (List String))
    (hr : r < σ.length) (hns : needsSplit (σ.read r) = false) :
    (splitImp σ r expected newNames).1.read r = stripCols (σ.read r) := by
  simp only [splitImp, hns, Bool.false_eq_true, if_false]
  exact finishRepairImp_read_self σ r expected newNames hr

/-- C10 witness: a caller's two-column frame with a padded label is mutated
in place to the stripped labels (so the final object differs from the
original). -/
theorem C10_witness :
    (splitImp [⟨[" A ", "B"], [[Cell.str "x", Cell.str "y"]]⟩] 0 ["A"] none).1.read 0
      = stripCols (Store.read [⟨[" A ", "B"], [[Cell.str "x", Cell.str "y"]]⟩] 0)
    ∧ stripCols (Store.read [⟨[" A ", "B"], [[Cell.str "x", Cell.str "y"]]⟩] 0)
      ≠ Store.read [⟨[" A ", "B"], [[Cell.str "x", Cell.str "y"]]⟩] 0 :=
  ⟨C10_strip_mutates_caller _ 0 ["A"] none (by decide) (by rfl), by decide⟩

/-! Claim C4: the claimed delimiter priority is comma, semicolon, pipe; the
source sets `sep = ","` as a default and then checks the semicolon first
(`if ";" in header`), then the pipe, so a header containing both a comma
and a semicolon is split on the semicolon. -/

/-- C4 counterexample: on the single-column header `A,B;C` (which contains
a comma) the code selects the semicolon, not the comma, and splits header
and row on the semicolon. -/
theorem C4_counterexample :
    detectSep "A,B;C" = ';'
    ∧ detectSep "A,B;C" ≠ ','
    ∧ splitSingleColumnCsv ⟨["A,B;C"], [[Cell.str "1,2;3"]]⟩ ["A,B", "C"] none
      = .ok ⟨["A,B", "C"], [[Cell.str "1,2", Cell.str "3"]]⟩ := by
  refine ⟨rfl, by decide, by rfl⟩

/-! Claim C7: repair is claimed to be a no-op on any multi-column table
containing all required columns; in fact the tail of the function selects
exactly the required columns, dropping extras and reordering, so a table
with an extra column is changed. -/

/-- C7 counterexample: a four-column table containing the three required
provider columns plus `Extra` is not returned unchanged — the repair
drops the `Extra` column. -/
theorem C7_counterexample :
    splitSingleColumnCsv
        ⟨["Name", "Region", "Specialty", "Extra"],
          [[Cell.str "a", Cell.str "b", Cell.str "c", Cell.str "d"]]⟩
        ["Name", "Region", "Specialty"] none
      = .ok ⟨["Name", "Region", "Specialty"],
          [[Cell.str "a", Cell.str "b", Cell.str "c"]]⟩
    ∧ (⟨["Name", "Region", "Specialty"],
          [[Cell.str "a", Cell.str "b", Cell.str "c"]]⟩ : DataFrame)
      ≠ ⟨["Name", "Region", "Specialty", "Extra"],
          [[Cell.str "a", Cell.str "b", Cell.str "c", Cell.str "d"]]⟩ := by
  refine ⟨by rfl, by decide⟩

/-- In a duplicate-free list, the first index found for the element at
position `i` is `i` itself. -/
theorem findIdx_self_of_nodup (names : List String) (i : Nat)
    (hi : i < names.length) (hn : names.Nodup) :
    names.findIdx (fun c => c = names[i]) = i := by
  induction names generalizing i with
  | nil => exact absurd hi (by simp)
  | cons a as ih =>
      rcases List.nodup_cons.mp hn with ⟨ha, has⟩
      cases i with
      | zero => simp [List.findIdx_cons]
      | succ i' =>
          have hi' : i' < as.length := Nat.lt_of_succ_lt_succ hi
          have hag : a ≠ as[i'] := fun hh => ha (hh ▸ List.getElem_mem hi')
          simp only [List.getElem_cons_succ, List.findIdx_cons]
          simp [hag, ih i' hi' has]

/-- Selecting a duplicate-free label list from a frame already carrying
exactly those labels returns the frame unchanged (for rows of matching
width). -/
theorem selectCols_self (cols : List String) (rows : List (List Cell))
    (hn : cols.Nodup) (hrows : ∀ r ∈ rows, r.length = cols.length) :
    selectCols ⟨cols, rows⟩ cols = ⟨cols, rows⟩ := by
  unfold selectCols
  have hrow : ∀ r ∈ rows,
      cols.map (fun n => r.getD (cols.findIdx (fun c => c = n)) Cell.na) = r := by
    intro r hr
    apply List.ext_getElem
    · simp [hrows r hr]
    · intro i h1 h2
      have hic : i < cols.length := by simpa using h1
      have hir : i < r.length := by rw [hrows r hr]; exact hic
      simp only [List.getElem_map]
      rw [findIdx_self_of_nodup cols i hic hn, List.getD_eq_getElem r Cell.na hir]
  have h2 : rows.map
      (fun r => cols.map (fun n => r.getD (cols.findIdx (fun c => c = n)) Cell.na))
      = rows := by
    have hcongr : rows.map
        (fun r => cols.map (fun n => r.getD (cols.findIdx (fun c => c = n)) Cell.na))
        = rows.map id :=
      List.map_congr_left (fun r hr => hrow r hr)
    rw [hcongr, List.map_id]
  rw [h2]

/-- Filtering a list by non-membership in itself yields nothing. -/
theorem filter_not_mem_self (l : List String) :
    l.filter (fun c => ¬ (c ∈ l)) = [] := by
  simp

/-! Claim C7 (amended): for every multi-column table whose trimmed labels
contain all required columns, the repair returns exactly the required
columns in required order (the selection of the stripped frame), dropping
extras; and whenever the trimmed labels are exactly the required list in
order, repair is the identity up to label trimming. -/

/-- C7 (amended): for every multi-column table whose trimmed column labels
contain all the required columns, the repair succeeds and returns exactly
the required columns in required order — the selection `df[expected_cols]`
of the stripped frame, whose label list is the required list (so extras
are dropped); when moreover the trimmed labels are exactly the
(duplicate-free) required list in order and rows have matching width, the
repair returns the table unchanged apart from the label trimming. -/
theorem C7_repair_noop_exact (cols : List String) (rows : List (List Cell))
    (expected : List String)
    (hmulti : 2 ≤ cols.length)
    (hcontain : ∀ c ∈ expected, c ∈ cols.map pyTrim) :
    (splitSingleColumnCsv ⟨cols, rows⟩ expected none
        = .ok (selectCols ⟨cols.map pyTrim, rows⟩ expected)
      ∧ (selectCols ⟨cols.map pyTrim, rows⟩ expected).columns = expected)
    ∧ (cols.map pyTrim = expected → expected.Nodup →
        (∀ r ∈ rows, r.length = cols.length) →
        splitSingleColumnCsv ⟨cols, rows⟩ expected none = .ok ⟨expected, rows⟩) := by
  have hns : needsSplit ⟨cols, rows⟩ = false := by
    show (decide (cols.length = 1) && hasDelim (cols.getD 0 "")) = false
    have h1 : decide (cols.length = 1) = false := by
      simp only [decide_eq_false_iff_not]
      omega
    rw [h1, Bool.false_and]
  have hmain : splitSingleColumnCsv ⟨cols, rows⟩ expected none
      = finishRepair ⟨cols, rows⟩ expected none := by
    unfold splitSingleColumnCsv
    rw [hns]
    simp only [Bool.false_eq_true, if_false]
  have hstrip : stripCols ⟨cols, rows⟩ = ⟨cols.map pyTrim, rows⟩ := rfl
  have hmissing : expected.filter (fun c => ¬ (c ∈ cols.map pyTrim)) = [] := by
    rw [List.filter_eq_nil_iff]
    intro c hc
    simp [hcontain c hc]
  have hgen : splitSingleColumnCsv ⟨cols, rows⟩ expected none
      = .ok (selectCols ⟨cols.map pyTrim, rows⟩ expected) := by
    rw [hmain]
    unfold finishRepair
    dsimp only
    rw [hstrip]
    dsimp only
    rw [hmissing]
    simp
  refine ⟨⟨hgen, rfl⟩, ?_⟩
  intro hcols hnodup hrows
  have hlen : expected.length = cols.length := by
    rw [← hcols, List.length_map]
  have hrows' : ∀ r ∈ rows, r.length = expected.length := by
    intro r hr
    rw [hlen]
    exact hrows r hr
  rw [hgen, hcols, selectCols_self expected rows hnodup hrows']

/-- C7 witness: a four-column frame containing the three required provider
columns plus an extra column is reduced to exactly the required columns in
required order, the extra dropped. -/
theorem C7_repair_witness :
    (splitSingleColumnCsv
        ⟨["Name", "Region", "Specialty", "Extra"],
          [[Cell.str "a", Cell.str "b", Cell.str "c", Cell.str "d"]]⟩
        ["Name", "Region", "Specialty"] none
      = .ok (selectCols
          ⟨(["Name", "Region", "Specialty", "Extra"] : List String).map pyTrim,
            [[Cell.str "a", Cell.str "b", Cell.str "c", Cell.str "d"]]⟩
          ["Name", "Region", "Specialty"])
      ∧ (selectCols
          ⟨(["Name", "Region", "Specialty", "Extra"] : List String).map pyTrim,
            [[Cell.str "a", Cell.str "b", Cell.str "c", Cell.str "d"]]⟩
          ["Name", "Region", "Specialty"]).columns = ["Name", "Region", "Specialty"])
    ∧ ((["Name", "Region", "Specialty", "Extra"] : List String).map pyTrim
          = ["Name", "Region", "Specialty"] →
        (["Name", "Region", "Specialty"] : List String).Nodup →
        (∀ r ∈ [[Cell.str "a", Cell.str "b", Cell.str "c", Cell.str "d"]],
          r.length = (["Name", "Region", "Specialty", "Extra"] : List String).length) →
        splitSingleColumnCsv
          ⟨["Name", "Region", "Specialty", "Extra"],
            [[Cell.str "a", Cell.str "b", Cell.str "c", Cell.str "d"]]⟩
          ["Name", "Region", "Specialty"] none
        = .ok ⟨["Name", "Region", "Specialty"],
            [[Cell.str "a", Cell.str "b", Cell.str "c", Cell.str "d"]]⟩) :=
  C7_repair_noop_exact ["Name", "Region", "Specialty", "Extra"]
    [[Cell.str "a", Cell.str "b", Cell.str "c", Cell.str "d"]]
    ["Name", "Region", "Specialty"] (by decide) (by decide)

/-! Claim C8: a single-column header without delimiter characters is not
split; validation then fails with the missing and the found columns, or
succeeds as a true single-column schema. -/

/-- C8: for a single-column table whose header contains no delimiter
character, the repair performs no split: validation sees exactly the
trimmed original header, and fails with a schema-mismatch error naming the
missing columns and the found columns whenever a required column is
absent; if the required list is exactly the trimmed header, the table
passes through unchanged. -/
theorem C8_single_column_no_delimiter (h0 : String) (rows : List (List Cell))
    (expected : List String)
    (hnd : hasDelim h0 = false)
    (hrows : ∀ r ∈ rows, r.length = 1) :
    (expected.filter (fun c => ¬ (c ∈ [pyTrim h0])) ≠ [] →
      splitSingleColumnCsv ⟨[h0], rows⟩ expected none
        = .error (.schemaMismatch
            (expected.filter (fun c => ¬ (c ∈ [pyTrim h0]))) [pyTrim h0]))
    ∧ (expected = [pyTrim h0] →
      splitSingleColumnCsv ⟨[h0], rows⟩ expected none = .ok ⟨[pyTrim h0], rows⟩) := by
  have hns : needsSplit ⟨[h0], rows⟩ = false := by
    unfold needsSplit
    dsimp only
    have : (⟨[h0], rows⟩ : DataFrame).columns.getD 0 "" = h0 := rfl
    simp [hnd]
  have hstrip : stripCols ⟨[h0], rows⟩ = ⟨[pyTrim h0], rows⟩ := rfl
  have hmain : splitSingleColumnCsv ⟨[h0], rows⟩ expected none
      = finishRepair ⟨[h0], rows⟩ expected none := by
    unfold splitSingleColumnCsv
    rw [hns]
    simp only [Bool.false_eq_true, if_false]
  constructor
  · intro hmiss
    rw [hmain]
    unfold finishRepair
    dsimp only
    rw [hstrip]
    dsimp only
    rw [if_neg hmiss]
  · intro hexp
    subst hexp
    rw [hmain]
    unfold finishRepair
    dsimp only
    rw [hstrip]
    dsimp only
    rw [filter_not_mem_self [pyTrim h0],
      selectCols_self [pyTrim h0] rows (by simp) (by simpa using hrows)]
    simp

/-- C8 witness: a single-column frame headed `Solo` with required column
`Name` fails naming the missing column and the found one; with required
column `Solo` it passes through unchanged. -/
theorem C8_witness :
    ((["Name"] : List String).filter (fun c => ¬ (c ∈ [pyTrim "Solo"])) ≠ [] →
      splitSingleColumnCsv ⟨["Solo"], [[Cell.str "v"]]⟩ ["Name"] none
        = .error (.schemaMismatch
            ((["Name"] : List String).filter (fun c => ¬ (c ∈ [pyTrim "Solo"])))
            [pyTrim "Solo"]))
    ∧ ((["Name"] : List String) = [pyTrim "Solo"] →
      splitSingleColumnCsv ⟨["Solo"], [[Cell.str "v"]]⟩ ["Name"] none
        = .ok ⟨[pyTrim "Solo"], [[Cell.str "v"]]⟩) :=
  C8_single_column_no_delimiter "Solo" [[Cell.str "v"]] ["Name"]
    (by rfl) (by decide)

/-- A fold of `max` over a nonempty constant list yields that constant. -/
theorem foldr_max_const (l : List Nat) (L : Nat) (hne : l ≠ [])
    (hall : ∀ x ∈ l, x = L) : l.foldr max 0 = L := by
  induction l with
  | nil => exact absurd rfl hne
  | cons a as ih =>
      have ha : a = L := hall a (List.mem_cons_self a as)
      cases as with
      | nil => simp [ha]
      | cons b bs =>
          have hrec : (b :: bs).foldr max 0 = L :=
            ih (by simp) (fun x hx => hall x (List.mem_cons_of_mem a hx))
          simp only [List.foldr_cons] at hrec ⊢
          rw [hrec, ha, Nat.max_self]

/-- Padding to the list's own length is the identity. -/
theorem padTo_self (w : Nat) (l : List Cell) (h : l.length = w) :
    padTo w l = l := by
  unfold padTo
  rw [h.symm, Nat.sub_self]
  simp

/-! Claim C4 (amended): the delimiter is selected semicolon-first, then
pipe, with comma as the default; header and all rows are split on the
selected delimiter. -/

/-- C4 (amended): on a single-column table (of string rows) whose header
contains a delimiter character, the repair selects the semicolon if the
header contains one, else the pipe if present, else the comma, and splits
the header and every row's single string value on that delimiter (stated
for well-formed inputs: every row splits to the header's width, and the
trimmed header parts are the duplicate-free required list). -/
theorem C4_sep_priority_and_split (h0 : String) (strs expected : List String)
    (hd : hasDelim h0 = true)
    (hne : strs ≠ [])
    (hsplit : ∀ s ∈ strs, (splitOnChar (detectSep h0) s.data).length
        = (splitOnChar (detectSep h0) h0.data).length)
    (hexp : (splitOnChar (detectSep h0) h0.data).map (fun cs => pyTrim ⟨cs⟩)
        = expected)
    (htrimfix : expected.map pyTrim = expected)
    (hnodup : expected.Nodup) :
    (strContains h0 ';' = true → detectSep h0 = ';')
    ∧ (strContains h0 ';' = false → strContains h0 '|' = true → detectSep h0 = '|')
    ∧ (strContains h0 ';' = false → strContains h0 '|' = false → detectSep h0 = ',')
    ∧ splitSingleColumnCsv ⟨[h0], strs.map (fun s => [Cell.str s])⟩ expected none
      = .ok ⟨expected,
          strs.map (fun s =>
            (splitOnChar (detectSep h0) s.data).map (fun cs => Cell.str ⟨cs⟩))⟩ := by
  refine ⟨fun hs => by simp [detectSep, hs],
    fun hs hp => by simp [detectSep, hs, hp],
    fun hs hp => by simp [detectSep, hs, hp], ?_⟩
  have hexplen : expected.length = (splitOnChar (detectSep h0) h0.data).length := by
    rw [← hexp, List.length_map]
  have hns : needsSplit ⟨[h0], strs.map (fun s => [Cell.str s])⟩ = true := by
    show (decide (([h0] : List String).length = 1) && hasDelim (([h0]).getD 0 "")) = true
    simp [hd]
  have hw : expandWidth (detectSep h0) (strs.map (fun s => [Cell.str s]))
      = (splitOnChar (detectSep h0) h0.data).length := by
    unfold expandWidth
    rw [List.map_map]
    apply foldr_max_const
    · intro hcontra
      exact hne (by simpa using hcontra)
    · intro x hx
      rcases List.mem_map.mp hx with ⟨s, hs, rfl⟩
      simp only [Function.comp_apply, List.getD_cons_zero, splitParts,
        List.length_map]
      exact hsplit s hs
  have hphase : splitPhase ⟨[h0], strs.map (fun s => [Cell.str s])⟩
      = .ok ⟨expected,
          strs.map (fun s =>
            (splitOnChar (detectSep h0) s.data).map (fun cs => Cell.str ⟨cs⟩))⟩ := by
    unfold splitPhase
    dsimp only
    simp only [List.getD_cons_zero]
    rw [hw, hexp]
    rw [if_pos hexplen]
    refine congrArg Except.ok ?_
    refine congrArg (DataFrame.mk expected) ?_
    rw [List.map_map]
    apply List.map_congr_left
    intro s hs
    simp only [Function.comp_apply, List.getD_cons_zero]
    unfold expandRow
    simp only [splitParts]
    rw [List.map_map]
    apply padTo_self
    rw [List.length_map]
    exact hsplit s hs
  have hrows1 : ∀ r ∈ strs.map (fun s =>
      (splitOnChar (detectSep h0) s.data).map (fun cs => Cell.str ⟨cs⟩)),
      r.length = expected.length := by
    intro r hr
    rcases List.mem_map.mp hr with ⟨s, hs, rfl⟩
    rw [List.length_map, hsplit s hs, hexplen]
  have hstrip : stripCols ⟨expected,
      strs.map (fun s =>
        (splitOnChar (detectSep h0) s.data).map (fun cs => Cell.str ⟨cs⟩))⟩
      = ⟨expected,
          strs.map (fun s =>
            (splitOnChar (detectSep h0) s.data).map (fun cs => Cell.str ⟨cs⟩))⟩ := by
    unfold stripCols
    dsimp only
    rw [htrimfix]
  unfold splitSingleColumnCsv
  rw [hns]
  simp only [if_true]
  rw [hphase]
  unfold finishRepair
  dsimp only
  rw [hstrip]
  dsimp only
  rw [filter_not_mem_self expected,
    selectCols_self expected _ hnodup hrows1]
  simp

/-- C4 witness: the spec's providers example, repaired by splitting header
and row on the comma (the only delimiter present). -/
theorem C4_witness :
    (strContains "Name,Region,Specialty" ';' = true
      → detectSep "Name,Region,Specialty" = ';')
    ∧ (strContains "Name,Region,Specialty" ';' = false
      → strContains "Name,Region,Specialty" '|' = true
      → detectSep "Name,Region,Specialty" = '|')
    ∧ (strContains "Name,Region,Specialty" ';' = false
      → strContains "Name,Region,Specialty" '|' = false
      → detectSep "Name,Region,Specialty" = ',')
    ∧ splitSingleColumnCsv
        ⟨["Name,Region,Specialty"],
          (["North Clinic,Midwest,Primary Care"] : List String).map
            (fun s => [Cell.str s])⟩
        ["Name", "Region", "Specialty"] none
      = .ok ⟨["Name", "Region", "Specialty"],
          (["North Clinic,Midwest,Primary Care"] : List String).map
            (fun s =>
              (splitOnChar (detectSep "Name,Region,Specialty") s.data).map
                (fun cs => Cell.str ⟨cs⟩))⟩ :=
  C4_sep_priority_and_split "Name,Region,Specialty"
    ["North Clinic,Midwest,Primary Care"] ["Name", "Region", "Specialty"]
    (by rfl) (by decide) (by decide) (by rfl) (by rfl) (by decide)

/-! Lemmas about `_coerce_types` for the frame claim C6. -/

/-- The object-level mapping loop writes only through `out`'s reference. -/
theorem coerceLoopImp_read_ne (m : List (String × String)) (σ : Store)
    (out q : Ref) (hq : q ≠ out) :
    ((coerceLoopImp σ out m).1).read q = σ.read q := by
  induction m generalizing σ with
  | nil => rfl
  | cons p rest ih =>
      rcases p with ⟨col, target⟩
      unfold coerceLoopImp
      dsimp only
      by_cases hc : col ∈ (σ.read out).columns
      · rw [if_pos hc]
        cases happ : applyCol (σ.read out) col target with
        | ok d' =>
            simp only [happ]
            rw [ih (σ.write out d')]
            exact Store.read_write_ne σ out q d' (fun hh => hq hh.symm)
        | error e => simp only [happ]
      · rw [if_neg hc]
        exact ih σ

/-- A successful column assignment preserves the column labels. -/
theorem applyCol_columns (df : DataFrame) (col target : String) (d' : DataFrame)
    (h : applyCol df col target = .ok d') : d'.columns = df.columns := by
  unfold applyCol at h
  cases hm : mapME (fun r => coerceCells df.columns col target r) df.rows with
  | ok rows' =>
      rw [hm] at h
      injection h with h'
      rw [← h']
  | error e =>
      rw [hm] at h
      exact absurd h (by simp)

/-- A successful row coercion leaves every cell whose label differs from
the assigned column unchanged. -/
theorem coerceCells_getD_ne (labels : List String) (col target : String)
    (cells cells' : List Cell)
    (h : coerceCells labels col target cells = .ok cells') (i : Nat)
    (hi : labels.getD i "" ≠ col) :
    cells'.getD i Cell.na = cells.getD i Cell.na := by
  induction cells generalizing labels cells' i with
  | nil =>
      unfold coerceCells at h
      injection h with h'
      rw [← h']
  | cons c cs ih =>
      cases labels with
      | nil =>
          unfold coerceCells at h
          injection h with h'
          rw [← h']
      | cons l ls =>
          simp only [coerceCells] at h
          cases hc : (if l = col then coerceTarget target c else .ok c) with
          | error e => rw [hc] at h; exact absurd h (by simp)
          | ok c' =>
              rw [hc] at h
              cases hrec : coerceCells ls col target cs with
              | error e => rw [hrec] at h; exact absurd h (by simp)
              | ok cs' =>
                  rw [hrec] at h
                  injection h with h'
                  rw [← h']
                  cases i with
                  | zero =>
                      have hl : l ≠ col := by simpa using hi
                      rw [if_neg hl] at hc
                      injection hc with hc'
                      rw [← hc']
                      rfl
                  | succ i' =>
                      have hi' : ls.getD i' "" ≠ col := by simpa using hi
                      simpa using ih ls cs' hrec i' hi'

/-- Row-wise traversal preserves any per-row-stable cell position. -/
theorem mapME_map_getD (f : List Cell → Except String (List Cell))
    (rows rows' : List (List Cell)) (i : Nat)
    (h : mapME f rows = .ok rows')
    (hstable : ∀ r r', f r = .ok r' → r'.getD i Cell.na = r.getD i Cell.na) :
    rows'.map (fun r => r.getD i Cell.na) = rows.map (fun r => r.getD i Cell.na) := by
  induction rows generalizing rows' with
  | nil =>
      unfold mapME at h
      injection h with h'
      rw [← h']
  | cons r rs ih =>
      unfold mapME at h
      cases hf : f r with
      | error e => rw [hf] at h; exact absurd h (by simp)
      | ok r' =>
          rw [hf] at h
          cases hrec : mapME f rs with
          | error e => rw [hrec] at h; exact absurd h (by simp)
          | ok rs' =>
              rw [hrec] at h
              injection h with h'
              rw [← h']
              simp only [List.map_cons]
              rw [hstable r r' hf, ih rs' hrec]

/-- A successful column assignment leaves every column with a different
label unchanged. -/
theorem applyCol_getCol_ne (df : DataFrame) (col target : String) (d' : DataFrame)
    (h : applyCol df col target = .ok d') (i : Nat)
    (hi : df.columns.getD i "" ≠ col) :
    getCol d' i = getCol df i := by
  unfold applyCol at h
  cases hm : mapME (fun r => coerceCells df.columns col target r) df.rows with
  | error e => rw [hm] at h; exact absurd h (by simp)
  | ok rows' =>
      rw [hm] at h
      injection h with h'
      rw [← h']
      show rows'.map (fun r => r.getD i Cell.na) = df.rows.map (fun r => r.getD i Cell.na)
      exact mapME_map_getD _ df.rows rows' i hm
        (fun r r' hf => coerceCells_getD_ne df.columns col target r r' hf i hi)

/-- A successful run of the mapping loop preserves the column labels. -/
theorem coerceLoop_columns (m : List (String × String)) (out res : DataFrame)
    (h : coerceLoop out m = .ok res) : res.columns = out.columns := by
  induction m generalizing out with
  | nil =>
      unfold coerceLoop at h
      injection h with h'
      rw [← h']
  | cons p rest ih =>
      rcases p with ⟨col, target⟩
      unfold coerceLoop at h
      by_cases hc : col ∈ out.columns
      · rw [if_pos hc] at h
        cases happ : applyCol out col target with
        | error e => rw [happ] at h; exact absurd h (by simp)
        | ok out' =>
            rw [happ] at h
            rw [ih out' h]
            exact applyCol_columns out col target out' happ
      · rw [if_neg hc] at h
        exact ih out h

/-- The mapping loop ignores entries whose column is absent: filtering the
mapping to the present columns does not change the result. -/
theorem coerceLoop_filter (cols : List String) (m : List (String × String))
    (out : DataFrame) (hcols : out.columns = cols) :
    coerceLoop out m = coerceLoop out (m.filter (fun p => p.1 ∈ cols)) := by
  induction m generalizing out with
  | nil => rfl
  | cons p rest ih =>
      rcases p with ⟨col, target⟩
      by_cases hc : col ∈ cols
      · have hmem : col ∈ out.columns := by rw [hcols]; exact hc
        have hfil : ((col, target) :: rest).filter (fun p => p.1 ∈ cols)
            = (col, target) :: rest.filter (fun p => p.1 ∈ cols) := by
          simp [List.filter_cons, hc]
        rw [hfil]
        simp only [coerceLoop]
        rw [if_pos hmem, if_pos hmem]
        cases happ : applyCol out col target with
        | error e => rfl
        | ok out' =>
            exact ih out' ((applyCol_columns out col target out' happ).trans hcols)
      · have hmem : col ∉ out.columns := by rw [hcols]; exact hc
        have hfil : ((col, target) :: rest).filter (fun p => p.1 ∈ cols)
            = rest.filter (fun p => p.1 ∈ cols) := by
          simp [List.filter_cons, hc]
        rw [hfil]
        conv =>
          lhs
          rw [show coerceLoop out ((col, target) :: rest)
            = if col ∈ out.columns then
                match applyCol out col target with
                | .ok out' => coerceLoop out' rest
                | .error e => .error e
              else coerceLoop out rest from rfl]
        rw [if_neg hmem]
        exact ih out hcols

/-- A successful run of the mapping loop leaves every column whose label
appears in no mapping entry unchanged. -/
theorem coerceLoop_getCol (m : List (String × String)) (out res : DataFrame)
    (i : Nat) (h : coerceLoop out m = .ok res)
    (hi : out.columns.getD i "" ∉ m.map Prod.fst) :
    getCol res i = getCol out i := by
  induction m generalizing out with
  | nil =>
      unfold coerceLoop at h
      injection h with h'
      rw [← h']
  | cons p rest ih =>
      rcases p with ⟨col, target⟩
      have hne : out.columns.getD i "" ≠ col := by
        intro hh
        apply hi
        simp only [List.map_cons, List.mem_cons]
        exact Or.inl hh
      have hrest : out.columns.getD i "" ∉ rest.map Prod.fst := by
        intro hh
        apply hi
        simp only [List.map_cons, List.mem_cons]
        exact Or.inr hh
      unfold coerceLoop at h
      by_cases hc : col ∈ out.columns
      · rw [if_pos hc] at h
        cases happ : applyCol out col target with
        | error e => rw [happ] at h; exact absurd h (by simp)
        | ok out' =>
            rw [happ] at h
            have hcolseq : out'.columns = out.columns :=
              applyCol_columns out col target out' happ
            have h1 : getCol res i = getCol out' i :=
              ih out' h (by rw [hcolseq]; exact hrest)
            rw [h1]
            exact applyCol_getCol_ne out col target out' happ i hne
      · rw [if_neg hc] at h
        exact ih out h hrest

/-- C6: `_coerce_types` never mutates its input — at the object level the
caller's frame reads back unchanged and the returned reference is a fresh
object — and mapped columns absent from the table are silently skipped
(filtering the mapping to the present columns changes nothing), leaving
every column not named by the mapping unchanged in the result. -/
theorem C6_coerce_no_mutation_skip_absent (σ : Store) (r : Ref) (df : DataFrame)
    (m : List (String × String)) (i : Nat) (hr : r < σ.length) :
    (coerceTypesImp σ r m).1.read r = σ.read r
    ∧ (∀ out', (coerceTypesImp σ r m).2 = .ok out' → out' ≠ r)
    ∧ coerceTypes df m = coerceTypes df (m.filter (fun p => p.1 ∈ df.columns))
    ∧ (∀ res, coerceTypes df m = .ok res →
        res.columns = df.columns
        ∧ (df.columns.getD i "" ∉ m.map Prod.fst → getCol res i = getCol df i)) := by
  have hq : r ≠ σ.length := fun hh => absurd (hh ▸ hr) (lt_irrefl σ.length)
  refine ⟨?_, ?_, ?_, ?_⟩
  · unfold coerceTypesImp
    dsimp only
    cases hl : coerceLoopImp (σ ++ [σ.read r]) σ.length m with
    | mk σ2 exc =>
        have h1 : σ2.read r = (σ ++ [σ.read r]).read r := by
          have := coerceLoopImp_read_ne m (σ ++ [σ.read r]) σ.length r hq
          rw [hl] at this
          exact this
        have h2 : (σ ++ [σ.read r]).read r = σ.read r :=
          Store.read_append_left σ [σ.read r] r hr
        cases exc with
        | ok u => simpa using h1.trans h2
        | error e => simpa using h1.trans h2
  · intro out' hout
    unfold coerceTypesImp at hout
    dsimp only at hout
    cases hl : coerceLoopImp (σ ++ [σ.read r]) σ.length m with
    | mk σ2 exc =>
        rw [hl] at hout
        cases exc with
        | ok u =>
            simp only at hout
            injection hout with h'
            rw [← h']
            exact fun hh => hq hh.symm
        | error e =>
            simp only at hout
            exact absurd hout (by simp)
  · exact coerceLoop_filter df.columns m df rfl
  · intro res hres
    exact ⟨coerceLoop_columns m df res hres,
      fun hfree => coerceLoop_getCol m df res i hres hfree⟩

/-- C6 witness: coercing a two-column frame with a mapping naming one
present and one absent column leaves the caller's object intact, returns a
fresh reference, ignores the absent entry, and leaves the unmapped second
column unchanged. -/
theorem C6_witness :
    (coerceTypesImp [⟨["a", "b"], [[Cell.str " x ", Cell.str "2"]]⟩] 0
        [("a", "str"), ("z", "int")]).1.read 0
      = Store.read [⟨["a", "b"], [[Cell.str " x ", Cell.str "2"]]⟩] 0
    ∧ (∀ out', (coerceTypesImp [⟨["a", "b"], [[Cell.str " x ", Cell.str "2"]]⟩] 0
        [("a", "str"), ("z", "int")]).2 = .ok out' → out' ≠ 0)
    ∧ coerceTypes ⟨["a", "b"], [[Cell.str " x ", Cell.str "2"]]⟩
        [("a", "str"), ("z", "int")]
      = coerceTypes ⟨["a", "b"], [[Cell.str " x ", Cell.str "2"]]⟩
          (([("a", "str"), ("z", "int")]).filter
            (fun p => p.1 ∈ (⟨["a", "b"], [[Cell.str " x ", Cell.str "2"]]⟩ : DataFrame).columns))
    ∧ (∀ res, coerceTypes ⟨["a", "b"], [[Cell.str " x ", Cell.str "2"]]⟩
        [("a", "str"), ("z", "int")] = .ok res →
        res.columns = (⟨["a", "b"], [[Cell.str " x ", Cell.str "2"]]⟩ : DataFrame).columns
        ∧ ((⟨["a", "b"], [[Cell.str " x ", Cell.str "2"]]⟩ : DataFrame).columns.getD 1 ""
              ∉ ([("a", "str"), ("z", "int")]).map Prod.fst →
            getCol res 1 = getCol ⟨["a", "b"], [[Cell.str " x ", Cell.str "2"]]⟩ 1)) :=
  C6_coerce_no_mutation_skip_absent
    [⟨["a", "b"], [[Cell.str " x ", Cell.str "2"]]⟩] 0
    ⟨["a", "b"], [[Cell.str " x ", Cell.str "2"]]⟩
    [("a", "str"), ("z", "int")] 1 (by decide)

/-! Lemmas about the orchestration trace. -/

/-- Case analysis of `execSteps`: either every step passes and the whole
block runs, or the trace is the failure-free prefix plus the first failing
step. -/
theorem execSteps_cases (fail : Event → Bool) (l : List Event) :
    (execSteps fail l = (l, true) ∧ ∀ x ∈ l, fail x = false)
    ∨ (∃ l₁ e l₂, l = l₁ ++ e :: l₂ ∧ (∀ x ∈ l₁, fail x = false)
        ∧ fail e = true ∧ execSteps fail l = (l₁ ++ [e], false)) := by
  induction l with
  | nil => exact Or.inl ⟨rfl, by simp⟩
  | cons e rest ih =>
      by_cases hf : fail e = true
      · refine Or.inr ⟨[], e, rest, rfl, by simp, hf, ?_⟩
        simp only [execSteps, if_pos hf]
        rfl
      · have hf' : fail e = false := by
          cases hfe : fail e with
          | true => exact absurd hfe hf
          | false => rfl
        rcases ih with ⟨hok, hall⟩ | ⟨l₁, e', l₂, hdec, hall, hfe, hres⟩
        · refine Or.inl ⟨?_, ?_⟩
          · simp only [execSteps, if_neg hf]
            rw [hok]
          · intro x hx
            rcases List.mem_cons.mp hx with rfl | hx'
            · exact hf'
            · exact hall x hx'
        · refine Or.inr ⟨e :: l₁, e', l₂, by rw [hdec, List.cons_append], ?_, hfe, ?_⟩
          · intro x hx
            rcases List.mem_cons.mp hx with rfl | hx'
            · exact hf'
            · exact hall x hx'
          · simp only [execSteps, if_neg hf]
            rw [hres, List.cons_append]

/-- Every invoked step of the block belongs to the step list. -/
theorem execSteps_subset (fail : Event → Bool) (l : List Event) (x : Event)
    (hx : x ∈ (execSteps fail l).1) : x ∈ l := by
  induction l with
  | nil =>
      simp only [execSteps] at hx
      exact absurd hx (by simp)
  | cons e rest ih =>
      by_cases hf : fail e = true
      · simp only [execSteps, if_pos hf] at hx
        have hxe : x = e := by simpa using hx
        rw [hxe]
        exact List.mem_cons_self e rest
      · simp only [execSteps, if_neg hf] at hx
        rcases List.mem_cons.mp hx with h1 | h1
        · rw [h1]; exact List.mem_cons_self e rest
        · exact List.mem_cons_of_mem e (ih h1)

/-- The invoked-step trace filters to a prefix of the filtered step list. -/
theorem execSteps_filter (fail : Event → Bool) (p : Event → Bool) (l : List Event) :
    ∃ k, ((execSteps fail l).1).filter p = (l.filter p).take k := by
  induction l with
  | nil => exact ⟨0, by simp [execSteps]⟩
  | cons e rest ih =>
      rcases ih with ⟨k, hk⟩
      by_cases hf : fail e = true
      · by_cases hp : p e = true
        · exact ⟨1, by simp [execSteps, if_pos hf, List.filter_cons, hp]⟩
        · exact ⟨0, by simp [execSteps, if_pos hf, List.filter_cons, hp]⟩
      · by_cases hp : p e = true
        · refine ⟨k + 1, ?_⟩
          simp only [execSteps, if_neg hf]
          simp [List.filter_cons, hp, hk]
        · refine ⟨k, ?_⟩
          simp only [execSteps, if_neg hf]
          simp [List.filter_cons, hp, hk]

/-- Folding one more event applies it to the folded run row. -/
theorem runRowAfter_concat (l : List Event) (e : Event) :
    runRowAfter (l ++ [e]) = applyEvent (runRowAfter l) e := by
  unfold runRowAfter
  rw [List.foldl_append]
  rfl

/-- The trace of `main` when the run row is created: the opening insert,
the invoked steps, and the single finalization whose status reflects
whether every step passed. -/
theorem runMain_trace (fail : Event → Bool) (sp st sc : Bool) (runId : Nat)
    (hstart : fail .startRun = false) :
    (runMain fail sp st sc runId).1
      = .startRun :: ((execSteps fail (mainSteps sp st sc runId)).1
          ++ [.finishRun runId
                (if (execSteps fail (mainSteps sp st sc runId)).2 = true
                 then "SUCCESS" else "FAILED")]) := by
  unfold runMain
  rw [hstart]
  simp only [Bool.false_eq_true, if_false]
  by_cases h2 : (execSteps fail (mainSteps sp st sc runId)).2 = true
  · rw [if_pos h2]
    dsimp only
    rw [if_pos h2]
  · rw [if_neg h2]
    dsimp only
    rw [if_neg h2]

/-- The propagation flag of `main` is the block's success flag once the
run row exists. -/
theorem runMain_snd (fail : Event → Bool) (sp st sc : Bool) (runId : Nat)
    (hstart : fail .startRun = false) :
    (runMain fail sp st sc runId).2
      = (execSteps fail (mainSteps sp st sc runId)).2 := by
  unfold runMain
  rw [hstart]
  simp only [Bool.false_eq_true, if_false]
  by_cases h2 : (execSteps fail (mainSteps sp st sc runId)).2 = true
  · rw [if_pos h2, h2]
  · rw [if_neg h2]
    cases hv : (execSteps fail (mainSteps sp st sc runId)).2 with
    | true => exact absurd hv h2
    | false => rfl

/-- The step list filters to exactly the three merge executions, in
dependency order, the claim merge carrying the run id. -/
theorem mainSteps_filter_merge (sp st sc : Bool) (runId : Nat) :
    (mainSteps sp st sc runId).filter isMergeEvent
      = [Event.mergeProc "dbo.sp_upsert_provider" none,
         Event.mergeProc "dbo.sp_upsert_patient" none,
         Event.mergeProc "dbo.sp_upsert_claim" (some runId)] := by
  cases sp <;> cases st <;> cases sc <;> rfl

/-- The provider merge is one of the steps. -/
theorem mergeProvider_mem_mainSteps (sp st sc : Bool) (runId : Nat) :
    Event.mergeProc "dbo.sp_upsert_provider" none ∈ mainSteps sp st sc runId := by
  cases sp <;> cases st <;> cases sc <;> simp [mainSteps]

/-- The patient merge is one of the steps. -/
theorem mergePatient_mem_mainSteps (sp st sc : Bool) (runId : Nat) :
    Event.mergeProc "dbo.sp_upsert_patient" none ∈ mainSteps sp st sc runId := by
  cases sp <;> cases st <;> cases sc <;> simp [mainSteps]

/-- No `finish_run` call occurs inside the `try` block's step list. -/
theorem finishRun_not_mem_mainSteps (sp st sc : Bool) (runId rid : Nat) (s : String) :
    Event.finishRun rid s ∉ mainSteps sp st sc runId := by
  cases sp <;> cases st <;> cases sc <;> simp [mainSteps]

/-- No step of the block is a `finish_run` call. -/
theorem mainSteps_not_finish (sp st sc : Bool) (runId : Nat) (x : Event)
    (hx : x ∈ mainSteps sp st sc runId) : isFinishEvent x = false := by
  cases x with
  | finishRun rid s => exact absurd hx (finishRun_not_mem_mainSteps sp st sc runId rid s)
  | startRun => rfl
  | readBlob b => rfl
  | splitCsv b => rfl
  | coerceStep b => rfl
  | truncateStaging => rfl
  | loadStg b => rfl
  | stgCounts => rfl
  | mergeProc a b => rfl
  | finalCounts => rfl
  | updateCounts a => rfl

/-- Two lists ending in a single element agree on that element and on the
front when equal. -/
theorem append_one_eq_append_one {α : Type} (l L : List α) (a b : α)
    (h : l ++ [a] = L ++ [b]) : a = b ∧ l = L := by
  induction l generalizing L with
  | nil =>
      cases L with
      | nil =>
          rw [List.nil_append, List.nil_append] at h
          injection h with h1 h2
          exact ⟨h1, rfl⟩
      | cons y ys =>
          rw [List.nil_append, List.cons_append] at h
          injection h with h1 h2
          exact absurd h2.symm (by simp)
  | cons x xs ih =>
      cases L with
      | nil =>
          rw [List.cons_append, List.nil_append] at h
          injection h with h1 h2
          exact absurd h2 (by simp)
      | cons y ys =>
          rw [List.cons_append, List.cons_append] at h
          injection h with h1 h2
          rcases ih ys h2 with ⟨hab, hl⟩
          exact ⟨hab, by rw [h1, hl]⟩

/-- C1: in every execution of `main` the merge procedures invoked form a
prefix of provider-then-patient-then-claim (the claim merge carrying the
current run identifier); if the provider merge is invoked and raises, the
patient and claim merges are never invoked and the run's status is
`FAILED`; if the patient merge is invoked and raises, the claim merge is
never invoked and the run's status is `FAILED`. -/
theorem C1_merge_order_and_abort (fail : Event → Bool) (sp st sc : Bool)
    (runId : Nat) :
    (∃ k, ((runMain fail sp st sc runId).1).filter isMergeEvent
      = ([Event.mergeProc "dbo.sp_upsert_provider" none,
          Event.mergeProc "dbo.sp_upsert_patient" none,
          Event.mergeProc "dbo.sp_upsert_claim" (some runId)]).take k)
    ∧ (Event.mergeProc "dbo.sp_upsert_provider" none ∈ (runMain fail sp st sc runId).1 →
        fail (Event.mergeProc "dbo.sp_upsert_provider" none) = true →
        Event.mergeProc "dbo.sp_upsert_patient" none ∉ (runMain fail sp st sc runId).1
        ∧ Event.mergeProc "dbo.sp_upsert_claim" (some runId) ∉ (runMain fail sp st sc runId).1
        ∧ (runRowAfter (runMain fail sp st sc runId).1).status = "FAILED")
    ∧ (Event.mergeProc "dbo.sp_upsert_patient" none ∈ (runMain fail sp st sc runId).1 →
        fail (Event.mergeProc "dbo.sp_upsert_patient" none) = true →
        Event.mergeProc "dbo.sp_upsert_claim" (some runId) ∉ (runMain fail sp st sc runId).1
        ∧ (runRowAfter (runMain fail sp st sc runId).1).status = "FAILED") := by
  by_cases hstart : fail .startRun = true
  · have htr : (runMain fail sp st sc runId).1 = [.startRun] := by
      unfold runMain
      rw [if_pos hstart]
    refine ⟨⟨0, by rw [htr]; rfl⟩, ?_, ?_⟩
    · intro hmem _
      rw [htr] at hmem
      simp at hmem
    · intro hmem _
      rw [htr] at hmem
      simp at hmem
  · have hstart' : fail .startRun = false := by
      cases hv : fail .startRun with
      | true => exact absurd hv hstart
      | false => rfl
    have htr := runMain_trace fail sp st sc runId hstart'
    rcases execSteps_cases fail (mainSteps sp st sc runId) with
      ⟨hok, hall⟩ | ⟨l₁, e, l₂, hdec, hpre, hfe, hres⟩
    · have h1 : (execSteps fail (mainSteps sp st sc runId)).1
          = mainSteps sp st sc runId := by rw [hok]
      have h2 : (execSteps fail (mainSteps sp st sc runId)).2 = true := by rw [hok]
      refine ⟨⟨3, ?_⟩, ?_, ?_⟩
      · rw [htr, h1, h2]
        simp [List.filter_cons, List.filter_append, isMergeEvent,
          mainSteps_filter_merge]
      · intro _ hPfail
        rw [hall _ (mergeProvider_mem_mainSteps sp st sc runId)] at hPfail
        simp at hPfail
      · intro _ hTfail
        rw [hall _ (mergePatient_mem_mainSteps sp st sc runId)] at hTfail
        simp at hTfail
    · have h1 : (execSteps fail (mainSteps sp st sc runId)).1 = l₁ ++ [e] := by
        rw [hres]
      have h2 : (execSteps fail (mainSteps sp st sc runId)).2 = false := by
        rw [hres]
      have htr2 : (runMain fail sp st sc runId).1
          = (Event.startRun :: (l₁ ++ [e])) ++ [Event.finishRun runId "FAILED"] := by
        rw [htr, h1, h2]
        simp only [Bool.false_eq_true, if_false]
        rw [List.cons_append]
      rcases execSteps_filter fail isMergeEvent (mainSteps sp st sc runId) with ⟨j, hj⟩
      rw [h1, mainSteps_filter_merge] at hj
      have hfiltr : ((runMain fail sp st sc runId).1).filter isMergeEvent
          = (l₁ ++ [e]).filter isMergeEvent := by
        rw [htr2, List.filter_append, List.filter_cons]
        simp [isMergeEvent]
      have hstatus : (runRowAfter (runMain fail sp st sc runId).1).status = "FAILED" := by
        rw [htr2, runRowAfter_concat]
        rfl
      refine ⟨⟨j, by rw [hfiltr, hj]⟩, ?_, ?_⟩
      · intro hPmem hPfail
        rw [htr2] at hPmem
        simp only [List.mem_append, List.mem_cons, List.not_mem_nil, or_false] at hPmem
        rcases hPmem with (hP | hP) | hP
        · simp at hP
        · rcases hP with hP | hP
          · rw [hpre _ hP] at hPfail
            simp at hPfail
          · have hPe : e = Event.mergeProc "dbo.sp_upsert_provider" none := by
              simpa using hP.symm
            subst hPe
            have hfl : (l₁ ++ [Event.mergeProc "dbo.sp_upsert_provider" none]).filter
                isMergeEvent
                = l₁.filter isMergeEvent
                  ++ [Event.mergeProc "dbo.sp_upsert_provider" none] := by
              rw [List.filter_append]
              rfl
            rw [hfl] at hj
            have hl1f : l₁.filter isMergeEvent = [] := by
              rcases j with _ | _ | _ | n
              · exact absurd hj (by simp)
              · have hj1 : l₁.filter isMergeEvent
                    ++ [Event.mergeProc "dbo.sp_upsert_provider" none]
                    = [] ++ [Event.mergeProc "dbo.sp_upsert_provider" none] := by
                  rw [hj]
                  rfl
                exact (append_one_eq_append_one _ _ _ _ hj1).2
              · have hj2 : l₁.filter isMergeEvent
                    ++ [Event.mergeProc "dbo.sp_upsert_provider" none]
                    = [Event.mergeProc "dbo.sp_upsert_provider" none]
                      ++ [Event.mergeProc "dbo.sp_upsert_patient" none] := by
                  rw [hj]
                  rfl
                exact absurd (append_one_eq_append_one _ _ _ _ hj2).1 (by decide)
              · have hj3 : l₁.filter isMergeEvent
                    ++ [Event.mergeProc "dbo.sp_upsert_provider" none]
                    = [Event.mergeProc "dbo.sp_upsert_provider" none,
                       Event.mergeProc "dbo.sp_upsert_patient" none]
                      ++ [Event.mergeProc "dbo.sp_upsert_claim" (some runId)] := by
                  rw [hj]
                  simp
                exact absurd (append_one_eq_append_one _ _ _ _ hj3).1
                  (fun hco => by
                    injection hco with ha hb
                    exact Option.noConfusion hb)
            have hnotl1 : ∀ pn : String, ∀ oa : Option Nat,
                Event.mergeProc pn oa ∉ l₁ := by
              intro pn oa hmem1
              have : Event.mergeProc pn oa ∈ l₁.filter isMergeEvent :=
                List.mem_filter.mpr ⟨hmem1, rfl⟩
              rw [hl1f] at this
              simp at this
            refine ⟨?_, ?_, hstatus⟩
            · intro hT
              rw [htr2] at hT
              simp only [List.mem_append, List.mem_cons, List.not_mem_nil,
                or_false] at hT
              rcases hT with (hT | hT) | hT
              · simp at hT
              · rcases hT with hT | hT
                · exact hnotl1 _ _ hT
                · simp at hT
              · simp at hT
            · intro hC
              rw [htr2] at hC
              simp only [List.mem_append, List.mem_cons, List.not_mem_nil,
                or_false] at hC
              rcases hC with (hC | hC) | hC
              · simp at hC
              · rcases hC with hC | hC
                · exact hnotl1 _ _ hC
                · simp at hC
              · simp at hC
        · simp at hP
      · intro hTmem hTfail
        rw [htr2] at hTmem
        simp only [List.mem_append, List.mem_cons, List.not_mem_nil, or_false] at hTmem
        rcases hTmem with (hT | hT) | hT
        · simp at hT
        · rcases hT with hT | hT
          · rw [hpre _ hT] at hTfail
            simp at hTfail
          · have hTe : e = Event.mergeProc "dbo.sp_upsert_patient" none := by
              simpa using hT.symm
            subst hTe
            have hfl : (l₁ ++ [Event.mergeProc "dbo.sp_upsert_patient" none]).filter
                isMergeEvent
                = l₁.filter isMergeEvent
                  ++ [Event.mergeProc "dbo.sp_upsert_patient" none] := by
              rw [List.filter_append]
              rfl
            rw [hfl] at hj
            have hl1f : l₁.filter isMergeEvent
                = [Event.mergeProc "dbo.sp_upsert_provider" none] := by
              rcases j with _ | _ | _ | n
              · exact absurd hj (by simp)
              · have hj1 : l₁.filter isMergeEvent
                    ++ [Event.mergeProc "dbo.sp_upsert_patient" none]
                    = [] ++ [Event.mergeProc "dbo.sp_upsert_provider" none] := by
                  rw [hj]
                  rfl
                exact absurd (append_one_eq_append_one _ _ _ _ hj1).1 (by decide)
              · have hj2 : l₁.filter isMergeEvent
                    ++ [Event.mergeProc "dbo.sp_upsert_patient" none]
                    = [Event.mergeProc "dbo.sp_upsert_provider" none]
                      ++ [Event.mergeProc "dbo.sp_upsert_patient" none] := by
                  rw [hj]
                  rfl
                exact (append_one_eq_append_one _ _ _ _ hj2).2
              · have hj3 : l₁.filter isMergeEvent
                    ++ [Event.mergeProc "dbo.sp_upsert_patient" none]
                    = [Event.mergeProc "dbo.sp_upsert_provider" none,
                       Event.mergeProc "dbo.sp_upsert_patient" none]
                      ++ [Event.mergeProc "dbo.sp_upsert_claim" (some runId)] := by
                  rw [hj]
                  simp
                exact absurd (append_one_eq_append_one _ _ _ _ hj3).1
                  (fun hco => by
                    injection hco with ha hb
                    exact Option.noConfusion hb)
            refine ⟨?_, hstatus⟩
            intro hC
            rw [htr2] at hC
            simp only [List.mem_append, List.mem_cons, List.not_mem_nil,
              or_false] at hC
            rcases hC with (hC | hC) | hC
            · simp at hC
            · rcases hC with hC | hC
              · have : Event.mergeProc "dbo.sp_upsert_claim" (some runId)
                    ∈ l₁.filter isMergeEvent :=
                  List.mem_filter.mpr ⟨hC, rfl⟩
                rw [hl1f] at this
                simp at this
              · simp at hC
            · simp at hC
        · simp at hT

/-- C1 witness: with an oracle failing exactly the provider merge, the
patient and claim merges are absent from the trace and the run ends
`FAILED`. -/
theorem C1_witness :
    Event.mergeProc "dbo.sp_upsert_patient" none
      ∉ (runMain
          (fun e => decide (e = Event.mergeProc "dbo.sp_upsert_provider" none))
          false false false 7).1
    ∧ Event.mergeProc "dbo.sp_upsert_claim" (some 7)
      ∉ (runMain
          (fun e => decide (e = Event.mergeProc "dbo.sp_upsert_provider" none))
          false false false 7).1
    ∧ (runRowAfter (runMain
          (fun e => decide (e = Event.mergeProc "dbo.sp_upsert_provider" none))
          false false false 7).1).status = "FAILED" :=
  (C1_merge_order_and_abort
    (fun e => decide (e = Event.mergeProc "dbo.sp_upsert_provider" none))
    false false false 7).2.1 (by decide) (by decide)

/-- C2: once the run row exists, exactly one `finish_run` call appears in
the trace; when the error propagates to the caller the trace ends with
`finish_run(run_id, FAILED)` (so the run is finalized before the re-raise)
and the run row holds status `FAILED` with a non-null end timestamp; on
the success path the trace ends with `finish_run(run_id, SUCCESS)`. -/
theorem C2_run_finalized_exactly_once (fail : Event → Bool) (sp st sc : Bool)
    (runId : Nat) (hstart : fail .startRun = false) :
    (((runMain fail sp st sc runId).1).filter isFinishEvent).length = 1
    ∧ ((runMain fail sp st sc runId).2 = false →
        (∃ l0, (runMain fail sp st sc runId).1
          = l0 ++ [.finishRun runId "FAILED"])
        ∧ (runRowAfter (runMain fail sp st sc runId).1).status = "FAILED"
        ∧ (runRowAfter (runMain fail sp st sc runId).1).endedAt ≠ none)
    ∧ ((runMain fail sp st sc runId).2 = true →
        (∃ l0, (runMain fail sp st sc runId).1
          = l0 ++ [.finishRun runId "SUCCESS"])
        ∧ (runRowAfter (runMain fail sp st sc runId).1).status = "SUCCESS"
        ∧ (runRowAfter (runMain fail sp st sc runId).1).endedAt ≠ none) := by
  have htr := runMain_trace fail sp st sc runId hstart
  have hsnd := runMain_snd fail sp st sc runId hstart
  have hNF : ((execSteps fail (mainSteps sp st sc runId)).1).filter isFinishEvent
      = [] := by
    rw [List.filter_eq_nil_iff]
    intro x hx
    rw [mainSteps_not_finish sp st sc runId x (execSteps_subset fail _ x hx)]
    simp
  refine ⟨?_, ?_, ?_⟩
  · rw [htr]
    rw [List.filter_cons]
    simp [List.filter_append, hNF, isFinishEvent]
  · intro hfail
    have hexec : (execSteps fail (mainSteps sp st sc runId)).2 = false :=
      hsnd.symm.trans hfail
    rw [hexec] at htr
    simp only [Bool.false_eq_true, if_false] at htr
    have htr2 : (runMain fail sp st sc runId).1
        = (Event.startRun :: (execSteps fail (mainSteps sp st sc runId)).1)
          ++ [Event.finishRun runId "FAILED"] := by
      rw [htr, List.cons_append]
    refine ⟨⟨_, htr2⟩, ?_, ?_⟩
    · rw [htr2, runRowAfter_concat]
      rfl
    · rw [htr2, runRowAfter_concat]
      simp [applyEvent]
  · intro hsucc
    have hexec : (execSteps fail (mainSteps sp st sc runId)).2 = true :=
      hsnd.symm.trans hsucc
    rw [hexec] at htr
    simp only [if_true] at htr
    have htr2 : (runMain fail sp st sc runId).1
        = (Event.startRun :: (execSteps fail (mainSteps sp st sc runId)).1)
          ++ [Event.finishRun runId "SUCCESS"] := by
      rw [htr, List.cons_append]
    refine ⟨⟨_, htr2⟩, ?_, ?_⟩
    · rw [htr2, runRowAfter_concat]
      rfl
    · rw [htr2, runRowAfter_concat]
      simp [applyEvent]

/-- C2 witness: with an oracle failing the patient staging load, the run
is finalized exactly once, with `FAILED` and a set end timestamp, the
finalization being the trace's last event. -/
theorem C2_witness :
    (((runMain (fun e => decide (e = Event.loadStg "StgPatient"))
        false false false 7).1).filter isFinishEvent).length = 1
    ∧ ((runMain (fun e => decide (e = Event.loadStg "StgPatient"))
          false false false 7).2 = false →
        (∃ l0, (runMain (fun e => decide (e = Event.loadStg "StgPatient"))
            false false false 7).1 = l0 ++ [.finishRun 7 "FAILED"])
        ∧ (runRowAfter (runMain (fun e => decide (e = Event.loadStg "StgPatient"))
            false false false 7).1).status = "FAILED"
        ∧ (runRowAfter (runMain (fun e => decide (e = Event.loadStg "StgPatient"))
            false false false 7).1).endedAt ≠ none)
    ∧ ((runMain (fun e => decide (e = Event.loadStg "StgPatient"))
          false false false 7).2 = true →
        (∃ l0, (runMain (fun e => decide (e = Event.loadStg "StgPatient"))
            false false false 7).1 = l0 ++ [.finishRun 7 "SUCCESS"])
        ∧ (runRowAfter (runMain (fun e => decide (e = Event.loadStg "StgPatient"))
            false false false 7).1).status = "SUCCESS"
        ∧ (runRowAfter (runMain (fun e => decide (e = Event.loadStg "StgPatient"))
            false false false 7).1).endedAt ≠ none) :=
  C2_run_finalized_exactly_once
    (fun e => decide (e = Event.loadStg "StgPatient")) false false false 7 (by decide)

/-- C9: every status ever passed to `finish_run` by the orchestration is
`SUCCESS` or `FAILED`; in particular `PARTIAL` is never assigned. -/
theorem C9_status_never_partial (fail : Event → Bool) (sp st sc : Bool)
    (runId rid : Nat) (s : String)
    (hmem : Event.finishRun rid s ∈ (runMain fail sp st sc runId).1) :
    (s = "SUCCESS" ∨ s = "FAILED") ∧ s ≠ "PARTIAL" := by
  by_cases hstart : fail .startRun = true
  · have htr : (runMain fail sp st sc runId).1 = [.startRun] := by
      unfold runMain
      rw [if_pos hstart]
    rw [htr] at hmem
    simp at hmem
  · have hstart' : fail .startRun = false := by
      cases hv : fail .startRun with
      | true => exact absurd hv hstart
      | false => rfl
    have htr := runMain_trace fail sp st sc runId hstart'
    rw [htr] at hmem
    simp only [List.mem_cons, List.mem_append, List.not_mem_nil, or_false] at hmem
    rcases hmem with hmem | hmem
    · simp at hmem
    rcases hmem with hmem | hmem
    · have hx := mainSteps_not_finish sp st sc runId _
        (execSteps_subset fail _ _ hmem)
      simp [isFinishEvent] at hx
    · by_cases hexec : (execSteps fail (mainSteps sp st sc runId)).2 = true
      · rw [if_pos hexec] at hmem
        injection hmem with h1 h2
        exact ⟨Or.inl h2, by rw [h2]; decide⟩
      · rw [if_neg hexec] at hmem
        injection hmem with h1 h2
        exact ⟨Or.inr h2, by rw [h2]; decide⟩

/-- C9 witness: the fully successful run finalizes with `SUCCESS`, which
is one of the two terminal statuses and is not `PARTIAL`. -/
theorem C9_witness :
    (("SUCCESS" : String) = "SUCCESS" ∨ ("SUCCESS" : String) = "FAILED")
    ∧ ("SUCCESS" : String) ≠ "PARTIAL" :=
  C9_status_never_partial (fun _ => false) false false false 7 7 "SUCCESS" (by decide)

end HealthOps
